import Mathlib

/-!
Verification of the anonymization / data-profiling core of zukii-python.

The embedding models the Python code of
`app/services/anonymization_service.py` and the outlier detection of
`app/utils/data_processor.py`.

Modelling conventions:
* A cell value is `Option Str` (`none` models a pandas null / NaN; every
  non-null cell is modelled by its string form, since every code path of
  the service immediately stringifies values with `str(...)` and the
  service's own masking functions only produce strings).
* Strings are modelled as `List Char` so that splitting / joining can be
  reasoned about by structural induction.
* Python float arithmetic is modelled with `ℚ` (exact rationals).
* A raised Python exception is modelled with `Except PyErr`.
* `pandas.Series.str.contains(pat, regex=True)` after `re.escape(pat)` is
  equivalent to a plain substring test for the literal text of `pat`:
  `re.escape` escapes every character that is not an ASCII letter, digit
  or underscore, so the resulting regular expression matches exactly the
  original pattern text, verbatim.  The embedding models it as substring
  containment of the literal pattern text.
-/

namespace Zukii

attribute [local semireducible] Rat.add Rat.mul Rat.inv Rat.sub

/-- Strings of the embedded program, as lists of characters. -/
abbrev Str := List Char

/-- Coerce a Lean string literal into the embedded string type. -/
def strOf (s : String) : Str := s.data

/-- A cell of a dataframe column: `none` is a pandas null. -/
abbrev Val := Option Str

/-- A dataframe: ordered association list of (column name, values). -/
abbrev DataFrame := List (Str × List Val)

/-- Python exceptions relevant to the embedded code. -/
inductive PyErr where
  | zeroDivisionError : PyErr
deriving DecidableEq, Repr

/-- Decidable equality of `Except` results, for evaluating the embedding
on concrete inputs. -/
instance {ε α : Type} [DecidableEq ε] [DecidableEq α] :
    DecidableEq (Except ε α)
  | .ok a, .ok b =>
    if h : a = b then .isTrue (by rw [h]) else .isFalse (by simp [h])
  | .ok _, .error _ => .isFalse (by simp)
  | .error _, .ok _ => .isFalse (by simp)
  | .error a, .error b =>
    if h : a = b then .isTrue (by rw [h]) else .isFalse (by simp [h])

/-- Python `str(value)` for a cell, as used by `astype(str)` on an object
column: a null (`None`) cell stringifies to `"None"`. -/
def strCell : Val → Str
  | none => strOf "None"
  | some s => s

/-- Substring containment: Python `needle in hay` on strings, and also the
effective semantics of `Series.str.contains(re.escape(pat), regex=True)`
(see the file header). -/
def containsSub (needle hay : Str) : Bool :=
  hay.tails.any (fun t => needle.isPrefixOf t)

/-- Python `str.lower()` restricted to ASCII letters (all column names and
keywords exercised by the development are ASCII or already lower-case). -/
def lowerStr (s : Str) : Str := s.map Char.toLower

/-- The number of distinct non-null values of a column:
`pandas.Series.nunique()` (drops nulls, counts distinct). -/
def nuniqueCol (vals : List Val) : Nat :=
  (vals.filterMap id).dedup.length

/-- The literal source texts of `AnonymizationService.patterns`.  The code
passes each through `re.escape` before `str.contains`, so the only strings
they can ever match are these literal texts themselves. -/
def patterns : List Str :=
  [ strOf "\\b[A-Za-z0-9._%+-]+@[A-Za-z0-9.-]+\\.[A-Z|a-z]\x7b2,\x7d\\b"
  , strOf "(\\+33|0)[1-9](\\d\x7b8\x7d)"
  , strOf "\\+[1-9]\\d\x7b1,14\x7d"
  , strOf "\\b\\d\x7b15\x7d\\b"
  , strOf "\\b\\d\x7b4\x7d[- ]?\\d\x7b4\x7d[- ]?\\d\x7b4\x7d[- ]?\\d\x7b4\x7d\\b"
  , strOf "\\b[A-Z]\x7b2\x7d\\d\x7b2\x7d[A-Z0-9]\x7b4\x7d\\d\x7b7\x7d([A-Z0-9]?)\x7b0,16\x7d\\b"
  , strOf "\\b\\d\x7b5\x7d\\b"
  , strOf "\\b\\d\x7b1,3\x7d\\.\\d\x7b1,3\x7d\\.\\d\x7b1,3\x7d\\.\\d\x7b1,3\x7d\\b"
  , strOf "\\b([0-9A-Fa-f]\x7b2\x7d[:-])\x7b5\x7d([0-9A-Fa-f]\x7b2\x7d)\\b" ]

/-- `AnonymizationService.sensitive_column_keywords`. -/
def sensitiveColumnKeywords : List Str :=
  [ strOf "email", strOf "mail", strOf "phone", strOf "téléphone", strOf "tel",
    strOf "mobile", strOf "ssn", strOf "social", strOf "security",
    strOf "numéro", strOf "number", strOf "credit", strOf "card",
    strOf "carte", strOf "iban", strOf "account", strOf "compte",
    strOf "address", strOf "adresse", strOf "postal", strOf "zip",
    strOf "code", strOf "ip", strOf "mac", strOf "id",
    strOf "identifier", strOf "identifiant", strOf "password",
    strOf "mot_de_passe", strOf "secret", strOf "token" ]

/-- `AnonymizationService._contains_sensitive_data`.
Rule 1: keyword in lower-cased column name.
Rule 2: some of the first 100 non-null (stringified) values contains the
verbatim text of a pattern (the `re.escape` effect, see file header).
Rule 3: `series.nunique() / len(series) > 0.9` — note the Python division
raises `ZeroDivisionError` when the series is empty. -/
def containsSensitiveData (vals : List Val) (columnName : Str) :
    Except PyErr Bool :=
  let columnLower := lowerStr columnName
  if sensitiveColumnKeywords.any (fun kw => containsSub kw columnLower) then
    .ok true
  else
    let sampleData := (vals.filterMap id).take 100
    if patterns.any (fun p => sampleData.any (fun v => containsSub p v)) then
      .ok true
    else if vals.length = 0 then
      .error .zeroDivisionError
    else if (nuniqueCol vals : ℚ) / (vals.length : ℚ) > 9/10 then
      .ok true
    else
      .ok false

/-! ## SHA-256 (hashlib.sha256), on byte lists, words as `Nat` mod 2^32 -/

/-- Two to the 32, the word modulus of SHA-256. -/
def M32 : Nat := 4294967296

/-- Addition modulo 2^32. -/
def add32 (a b : Nat) : Nat := (a + b) % M32

/-- Right rotation of a 32-bit word. -/
def rotr32 (n w : Nat) : Nat := ((w >>> n) ||| (w <<< (32 - n))) % M32

/-- SHA-256 small sigma 0. -/
def ssig0 (w : Nat) : Nat := (rotr32 7 w) ^^^ (rotr32 18 w) ^^^ (w >>> 3)

/-- SHA-256 small sigma 1. -/
def ssig1 (w : Nat) : Nat := (rotr32 17 w) ^^^ (rotr32 19 w) ^^^ (w >>> 10)

/-- SHA-256 big sigma 0. -/
def bsig0 (w : Nat) : Nat := (rotr32 2 w) ^^^ (rotr32 13 w) ^^^ (rotr32 22 w)

/-- SHA-256 big sigma 1. -/
def bsig1 (w : Nat) : Nat := (rotr32 6 w) ^^^ (rotr32 11 w) ^^^ (rotr32 25 w)

/-- The 64 SHA-256 round constants (FIPS 180-4), written in decimal. -/
def kConstants : List Nat :=
  [1116352408, 1899447441, 3049323471, 3921009573, 961987163,
   1508970993, 2453635748, 2870763221, 3624381080, 310598401,
   607225278, 1426881987, 1925078388, 2162078206, 2614888103,
   3248222580, 3835390401, 4022224774, 264347078, 604807628,
   770255983, 1249150122, 1555081692, 1996064986, 2554220882,
   2821834349, 2952996808, 3210313671, 3336571891, 3584528711,
   113926993, 338241895, 666307205, 773529912, 1294757372,
   1396182291, 1695183700, 1986661051, 2177026350, 2456956037,
   2730485921, 2820302411, 3259730800, 3345764771, 3516065817,
   3600352804, 4094571909, 275423344, 430227734, 506948616,
   659060556, 883997877, 958139571, 1322822218, 1537002063,
   1747873779, 1955562222, 2024104815, 2227730452, 2361852424,
   2428436474, 2756734187, 3204031479, 3329325298]

/-- The eight-word SHA-256 working state. -/
structure Hash8 where
  a : Nat
  b : Nat
  c : Nat
  d : Nat
  e : Nat
  f : Nat
  g : Nat
  h : Nat
deriving DecidableEq, Repr

/-- The SHA-256 initial hash state (FIPS 180-4), written in decimal. -/
def initH : Hash8 :=
  ⟨1779033703, 3144134277, 1013904242, 2773480762,
   1359893119, 2600822924, 528734635, 1541459225⟩

/-- Message-schedule extension of a 16-word chunk to 64 words. -/
def schedule (w16 : List Nat) : List Nat :=
  (List.range 64).foldl
    (fun ws i =>
      if i < 16 then ws ++ [w16.getD i 0]
      else ws ++ [add32 (add32 (ssig1 (ws.getD (i - 2) 0)) (ws.getD (i - 7) 0))
                        (add32 (ssig0 (ws.getD (i - 15) 0)) (ws.getD (i - 16) 0))])
    []

/-- One SHA-256 compression round. -/
def compressRound (k w : Nat) (s : Hash8) : Hash8 :=
  let ch := (s.e &&& s.f) ^^^ ((s.e ^^^ 0xffffffff) &&& s.g)
  let t1 := (s.h + bsig1 s.e + ch + k + w) % M32
  let maj := (s.a &&& s.b) ^^^ (s.a &&& s.c) ^^^ (s.b &&& s.c)
  let t2 := (bsig0 s.a + maj) % M32
  ⟨(t1 + t2) % M32, s.a, s.b, s.c, (s.d + t1) % M32, s.e, s.f, s.g⟩

/-- Compress one 16-word chunk into the running state. -/
def compressChunk (s : Hash8) (chunkWords : List Nat) : Hash8 :=
  let ws := schedule chunkWords
  let t := (kConstants.zip ws).foldl (fun st p => compressRound p.1 p.2 st) s
  ⟨add32 s.a t.a, add32 s.b t.b, add32 s.c t.c, add32 s.d t.d,
   add32 s.e t.e, add32 s.f t.f, add32 s.g t.g, add32 s.h t.h⟩

/-- Big-endian byte serialization of `x` on `n` bytes. -/
def beBytes (n x : Nat) : List Nat :=
  (List.range n).map (fun i => (x >>> (8 * (n - 1 - i))) % 256)

/-- SHA-256 message padding: `0x80`, zeros to 56 mod 64, 64-bit bit length. -/
def padMessage (msg : List Nat) : List Nat :=
  let L := msg.length
  let padZeros := (64 + 55 - (L % 64)) % 64
  msg ++ [0x80] ++ List.replicate padZeros 0 ++ beBytes 8 (L * 8)

/-- Split a byte list into successive 64-byte chunks (fuel-based
structural recursion; `fuel = l.length` always suffices because each step
drops at least one element of a non-empty list). -/
def chunkListGo (fuel : Nat) (l : List Nat) : List (List Nat) :=
  match fuel, l with
  | _, [] => []
  | 0, _ => []
  | fuel + 1, x :: xs => ((x :: xs).take 64) :: chunkListGo fuel ((x :: xs).drop 64)

/-- Split a byte list into successive 64-byte chunks. -/
def chunkList (l : List Nat) : List (List Nat) := chunkListGo l.length l

/-- Read the sixteen big-endian 32-bit words of one 64-byte chunk. -/
def chunkWords (chunk : List Nat) : List Nat :=
  (List.range 16).map
    (fun i => ((chunk.drop (4 * i)).take 4).foldl (fun a b => a * 256 + b) 0)

/-- The SHA-256 digest of a byte list: eight 32-bit words. -/
def sha256 (msg : List Nat) : List Nat :=
  let final := ((chunkList (padMessage msg)).map chunkWords).foldl compressChunk initH
  [final.a, final.b, final.c, final.d, final.e, final.f, final.g, final.h]

/-- The lower-case hexadecimal digit characters. -/
def hexDigitChar (n : Nat) : Char := (strOf "0123456789abcdef").getD n '0'

/-- Lower-case hexadecimal rendering of one 32-bit word, eight digits. -/
def wordHex (w : Nat) : Str :=
  (List.range 8).map (fun i => hexDigitChar ((w >>> (4 * (7 - i))) % 16))

/-- `hashlib.sha256(...).hexdigest()`: 64 lower-case hex characters. -/
def sha256hex (msg : List Nat) : Str := ((sha256 msg).map wordHex).flatten

/-- UTF-8 encoding of a single character (Python `str.encode()`). -/
def utf8Char (c : Char) : List Nat :=
  let n := c.toNat
  if n < 0x80 then [n]
  else if n < 0x800 then [0xc0 + n / 64, 0x80 + n % 64]
  else if n < 0x10000 then
    [0xe0 + n / 4096, 0x80 + (n / 64) % 64, 0x80 + n % 64]
  else
    [0xf0 + n / 262144, 0x80 + (n / 4096) % 64, 0x80 + (n / 64) % 64,
     0x80 + n % 64]

/-- UTF-8 encoding of an embedded string. -/
def utf8Str (s : Str) : List Nat := (s.map utf8Char).flatten

/-- The hard-coded salt of `AnonymizationService._hash_value`. -/
def saltStr : Str := strOf "zukii_anon_2024"

/-- `AnonymizationService._hash_value` on an already-stringified value:
salted SHA-256 hex digest truncated to its first 8 characters. -/
def hashStr (s : Str) : Str := (sha256hex (utf8Str (saltStr ++ s))).take 8

/-! ## Masking strategies -/

/-- Python `s.split(c, 1)`: the part before the first occurrence of `c`,
and (when `c` occurs) the remainder after it. -/
def splitFirst (c : Char) : Str → Str × Option Str
  | [] => ([], none)
  | x :: xs =>
    if x = c then ([], some xs)
    else
      let r := splitFirst c xs
      (x :: r.1, r.2)

/-- Python `s.split(c)`: always a non-empty list of parts. -/
def splitAll (c : Char) : Str → List Str
  | [] => [[]]
  | x :: xs =>
    if x = c then [] :: splitAll c xs
    else
      match splitAll c xs with
      | [] => [[x]]
      | a :: rest => (x :: a) :: rest

/-- Python `c.join(parts)`. -/
def joinWith (c : Char) : List Str → Str
  | [] => []
  | [p] => p
  | p :: ps => p ++ c :: joinWith c ps

/-- The masked username of `_anonymize_emails`: first and last character
kept when the length exceeds 2, full mask otherwise. -/
def maskUsername (u : Str) : Str :=
  if u.length > 2 then
    u.take 1 ++ List.replicate (u.length - 2) '*' ++ u.drop (u.length - 1)
  else
    List.replicate u.length '*'

/-- Per-value transform of `AnonymizationService._anonymize_emails`. -/
def anonymizeEmail (v : Val) : Val :=
  match v with
  | none => none
  | some s =>
    match splitFirst '@' s with
    | (_, none) => some (hashStr s)
    | (username, some domain) =>
      let au := maskUsername username
      let parts := splitAll '.' domain
      let ad :=
        if parts.length ≥ 2 then
          List.replicate (parts.headD []).length '*' ++ '.' :: joinWith '.' parts.tail
        else
          List.replicate domain.length '*'
      some (au ++ '@' :: ad)

/-- Python `re.sub(r'\D', '', s)`: keep only the ASCII decimal digits. -/
def digitsOnly (s : Str) : Str := s.filter (fun c => c.isDigit)

/-- Per-value transform of `_anonymize_phones`: keep first 2 and last 2
digits when at least 4 digits, full mask otherwise. -/
def anonymizePhone (v : Val) : Val :=
  match v with
  | none => none
  | some s =>
    let d := digitsOnly s
    if d.length ≥ 4 then
      some (d.take 2 ++ List.replicate (d.length - 4) '*' ++ d.drop (d.length - 2))
    else
      some (List.replicate d.length '*')

/-- Per-value transform of `_anonymize_ssn`: keep first 3 and last 3
digits when at least 6 digits, full mask otherwise. -/
def anonymizeSsnVal (v : Val) : Val :=
  match v with
  | none => none
  | some s =>
    let d := digitsOnly s
    if d.length ≥ 6 then
      some (d.take 3 ++ List.replicate (d.length - 6) '*' ++ d.drop (d.length - 3))
    else
      some (List.replicate d.length '*')

/-- Per-value transform of `_anonymize_financial`: keep first 4 and last 4
digits when at least 8 digits, full mask otherwise. -/
def anonymizeFinancial (v : Val) : Val :=
  match v with
  | none => none
  | some s =>
    let d := digitsOnly s
    if d.length ≥ 8 then
      some (d.take 4 ++ List.replicate (d.length - 8) '*' ++ d.drop (d.length - 4))
    else
      some (List.replicate d.length '*')

/-- Python `str.strip()`: remove leading and trailing whitespace. -/
def stripStr (s : Str) : Str :=
  (((s.dropWhile (fun c => c.isWhitespace)).reverse.dropWhile
      (fun c => c.isWhitespace)).reverse)

/-- Per-value transform of `_anonymize_addresses`: split on commas; with at
least two parts the output is `***, <last part stripped>`, else hash. -/
def anonymizeAddress (v : Val) : Val :=
  match v with
  | none => none
  | some s =>
    let parts := splitAll ',' s
    if parts.length ≥ 2 then
      some (strOf "***, " ++ stripStr (parts.getLastD []))
    else
      some (hashStr s)

/-- Per-value transform of `_anonymize_network`: IPv4-shaped values keep
the first two octets, MAC-shaped values the first two groups; else hash. -/
def anonymizeNetwork (v : Val) : Val :=
  match v with
  | none => none
  | some s =>
    if containsSub (strOf ".") s then
      let parts := splitAll '.' s
      if parts.length = 4 then
        some (parts.getD 0 [] ++ '.' :: parts.getD 1 [] ++ strOf ".*.*")
      else
        some (hashStr s)
    else if containsSub (strOf ":") s then
      let parts := splitAll ':' s
      if parts.length = 6 then
        some (parts.getD 0 [] ++ ':' :: parts.getD 1 [] ++ strOf ":*:*:*:*")
      else
        some (hashStr s)
    else
      some (hashStr s)

/-- Decimal digit character (`'0'` to `'9'`). -/
def decChar (d : Nat) : Char := Char.ofNat (48 + d)

/-- Decimal rendering, fuel-based structural recursion (`fuel = n + 1`
always suffices: the argument strictly shrinks at every division). -/
def decStrGo (fuel n : Nat) : Str :=
  match fuel with
  | 0 => []
  | fuel + 1 =>
    if n < 10 then [decChar n]
    else decStrGo fuel (n / 10) ++ [decChar (n % 10)]

/-- Decimal rendering of a natural number, most significant digit first. -/
def decStr (n : Nat) : Str := decStrGo (n + 1) n

/-- Python `f"ID_{n:06d}"`: `"ID_"` then `n` zero-padded to six digits. -/
def idToken (n : Nat) : Str :=
  let ds := decStr n
  strOf "ID_" ++ List.replicate (6 - ds.length) '0' ++ ds

/-- The recursion of `_anonymize_ids`: thread the per-call `id_mapping`
dictionary (an insertion-ordered association list, newest first) through
the values; a fresh token index is the current mapping size plus one. -/
def anonymizeIdsGo (m : List (Str × Str)) : List Val → List Val
  | [] => []
  | none :: vs => none :: anonymizeIdsGo m vs
  | some s :: vs =>
    match m.lookup s with
    | some tok => some tok :: anonymizeIdsGo m vs
    | none =>
      let tok := idToken (m.length + 1)
      some tok :: anonymizeIdsGo ((s, tok) :: m) vs

/-- `AnonymizationService._anonymize_ids`: the mapping starts empty at
every call (one call = one column). -/
def anonymizeIds (vals : List Val) : List Val := anonymizeIdsGo [] vals

/-- Per-value transform of `_anonymize_generic`: salted truncated hash of
non-null values, nulls unchanged. -/
def anonymizeGenericVal (v : Val) : Val :=
  match v with
  | none => none
  | some s => some (hashStr s)

/-- `AnonymizationService._anonymize_generic`. -/
def anonymizeGeneric (vals : List Val) : List Val :=
  vals.map anonymizeGenericVal

/-- Does the lower-cased column name contain one of the keywords? -/
def nameHasAny (keywords : List String) (columnName : Str) : Bool :=
  let columnLower := lowerStr columnName
  keywords.any (fun kw => containsSub (strOf kw) columnLower)

/-- `AnonymizationService._anonymize_column`: keyword-dispatched choice of
the masking strategy, in the source's if/elif order. -/
def anonymizeColumn (vals : List Val) (columnName : Str) : List Val :=
  if nameHasAny ["email", "mail"] columnName then
    vals.map anonymizeEmail
  else if nameHasAny ["phone", "téléphone", "tel", "mobile"] columnName then
    vals.map anonymizePhone
  else if nameHasAny ["ssn", "social", "security"] columnName then
    vals.map anonymizeSsnVal
  else if nameHasAny ["credit", "card", "carte", "iban"] columnName then
    vals.map anonymizeFinancial
  else if nameHasAny ["address", "adresse", "postal", "zip"] columnName then
    vals.map anonymizeAddress
  else if nameHasAny ["ip", "mac"] columnName then
    vals.map anonymizeNetwork
  else if nameHasAny ["id", "identifier", "identifiant"] columnName then
    anonymizeIds vals
  else
    anonymizeGeneric vals

/-- `AnonymizationService._get_anonymization_method`: the reported method
name, mirroring the dispatch of `_anonymize_column`. -/
def getAnonymizationMethod (columnName : Str) : Str :=
  if nameHasAny ["email", "mail"] columnName then strOf "email_masking"
  else if nameHasAny ["phone", "téléphone", "tel", "mobile"] columnName then
    strOf "phone_masking"
  else if nameHasAny ["ssn", "social", "security"] columnName then
    strOf "ssn_masking"
  else if nameHasAny ["credit", "card", "carte", "iban"] columnName then
    strOf "financial_masking"
  else if nameHasAny ["address", "adresse", "postal", "zip"] columnName then
    strOf "address_masking"
  else if nameHasAny ["ip", "mac"] columnName then strOf "network_masking"
  else if nameHasAny ["id", "identifier", "identifiant"] columnName then
    strOf "id_mapping"
  else strOf "hash_anonymization"

/-! ## Data-loss estimation -/

/-- Mean length of the stringified values of a column:
`series.astype(str).str.len().mean()` (nulls stringify to `"None"`). -/
def meanLen (vals : List Val) : ℚ :=
  ((vals.map (fun v => ((strCell v).length : ℚ))).sum) / (vals.length : ℚ)

/-- `AnonymizationService._calculate_data_loss`, with Python floats
modelled by exact rationals. -/
def calculateDataLoss (original anonymized : List Val) : ℚ :=
  if original.length = 0 then 0
  else
    let originalUnique : ℚ := (nuniqueCol original : ℚ)
    let anonymizedUnique : ℚ := (nuniqueCol anonymized : ℚ)
    if originalUnique = 0 then 0
    else
      let cardinalityLoss := 1 - anonymizedUnique / originalUnique
      let originalAvgLength := meanLen original
      let anonymizedAvgLength := meanLen anonymized
      let lengthLoss :=
        if originalAvgLength = 0 then 0
        else 1 - anonymizedAvgLength / originalAvgLength
      cardinalityLoss * (7/10) + lengthLoss * (3/10)

/-! ## The orchestrator -/

/-- The `anonymization_report` dictionary (the wall-clock
`processing_time` field is not part of the embedding). -/
structure Report where
  columnsProcessed : Nat
  columnsAnonymized : Nat
  sensitiveColumnsDetected : List Str
  anonymizationMethods : List (Str × Str × ℚ)
  dataLossEstimate : ℚ
deriving DecidableEq, Repr

/-- The empty report created at the start of `anonymize_dataframe`. -/
def initReport : Report := ⟨0, 0, [], [], 0⟩

/-- The per-column loop of `anonymize_dataframe`, over the working copy:
a raised exception aborts the whole loop (and the call re-raises it). -/
def anonymizeLoop : List (Str × List Val) → Report →
    Except PyErr (List (Str × List Val) × Report)
  | [], report => .ok ([], report)
  | (name, vals) :: rest, report => do
    let report := { report with columnsProcessed := report.columnsProcessed + 1 }
    let sensitive ← containsSensitiveData vals name
    if sensitive then
      let newVals := anonymizeColumn vals name
      let dataLoss := calculateDataLoss vals newVals
      let report :=
        { report with
          columnsAnonymized := report.columnsAnonymized + 1
          sensitiveColumnsDetected := report.sensitiveColumnsDetected ++ [name]
          anonymizationMethods :=
            report.anonymizationMethods ++ [(name, getAnonymizationMethod name, dataLoss)]
          dataLossEstimate := report.dataLossEstimate + dataLoss }
      let r ← anonymizeLoop rest report
      .ok ((name, newVals) :: r.1, r.2)
    else
      let r ← anonymizeLoop rest report
      .ok ((name, vals) :: r.1, r.2)

/-- `AnonymizationService.anonymize_dataframe`: works on a copy of the
dataframe and returns it with the report; any per-column exception is
re-raised to the caller. -/
def anonymizeDataframe (df : DataFrame) : Except PyErr (DataFrame × Report) :=
  anonymizeLoop df initReport

/-! ## An explicit-heap model of `anonymize_dataframe` (frame property)

Python object semantics are made explicit: a store is a list of dataframe
objects, a Python variable holds an index into it.  `df.copy()` allocates
a fresh object at the end of the store; `df_anon[column] = ...` writes to
the object the `df_anon` variable points to. -/

/-- Read a column of a dataframe by name (empty when absent). -/
def getCol (df : DataFrame) (name : Str) : List Val :=
  (df.lookup name).getD []

/-- Replace the values of the named column of a dataframe. -/
def setColDf (df : DataFrame) (name : Str) (vals : List Val) : DataFrame :=
  df.map (fun c => if c.1 = name then (c.1, vals) else c)

/-- A store of Python dataframe objects; references are list indices. -/
abbrev Store := List DataFrame

/-- Write one column of the object at reference `r`. -/
def storeSetCol (st : Store) (r : Nat) (name : Str) (vals : List Val) : Store :=
  st.set r (setColDf (st.getD r []) name vals)

/-- The per-column loop of `anonymize_dataframe` acting on the store: every
read and write of `df_anon` goes through reference `r` (report bookkeeping
is pure data and does not touch the store, so it is elided here; the pure
`anonymizeLoop` carries it). -/
def anonymizeLoopH (cols : List Str) (st : Store) (r : Nat) :
    Store × Except PyErr Unit :=
  match cols with
  | [] => (st, .ok ())
  | c :: rest =>
    let w := st.getD r []
    match containsSensitiveData (getCol w c) c with
    | .error e => (st, .error e)
    | .ok true =>
      anonymizeLoopH rest (storeSetCol st r c (anonymizeColumn (getCol w c) c)) r
    | .ok false => anonymizeLoopH rest st r

/-- `anonymize_dataframe` with the heap explicit: `df_anon = df.copy()`
allocates a fresh object (at index `st.length`) holding the same value,
and the loop then writes only through that fresh reference.  The returned
store is the heap after the call (also when an exception propagates). -/
def anonymizeDataframeH (st : Store) (r : Nat) : Store × Except PyErr Nat :=
  let df := st.getD r []
  let st1 := st ++ [df]
  let r1 := st.length
  match anonymizeLoopH (df.map Prod.fst) st1 r1 with
  | (st2, .ok ()) => (st2, .ok r1)
  | (st2, .error e) => (st2, .error e)

/-! ## Outlier detection (`DataProcessor.detect_anomalies_general`) -/

/-- Insert a rational into an ascending-sorted list. -/
def insertSorted (x : ℚ) : List ℚ → List ℚ
  | [] => [x]
  | y :: ys => if x ≤ y then x :: y :: ys else y :: insertSorted x ys

/-- Ascending insertion sort of rationals (the sort underlying
`pandas.Series.quantile`). -/
def sortQ (l : List ℚ) : List ℚ := l.foldr insertSorted []

/-- `pandas.Series.quantile(q)` with the default linear interpolation:
position `q * (n-1)` in the sorted values, linearly interpolated. -/
def quantileLinear (xs : List ℚ) (q : ℚ) : ℚ :=
  let s := sortQ xs
  let pos := q * ((s.length : ℚ) - 1)
  let lo := (Int.floor pos).toNat
  let frac := pos - (Int.floor pos : ℚ)
  match s[lo + 1]? with
  | some next => s.getD lo 0 + frac * (next - s.getD lo 0)
  | none => s.getD lo 0

/-- The per-column outlier record of `detect_anomalies_general`. -/
structure OutlierInfo where
  q1 : ℚ
  q3 : ℚ
  iqr : ℚ
  lowerBound : ℚ
  upperBound : ℚ
  count : Nat
  percentage : ℚ
  indices : List Nat
deriving DecidableEq, Repr

/-- The IQR outlier computation of `detect_anomalies_general` for one
numeric column: Tukey fences at 1.5 IQR, strict comparisons. -/
def detectOutliersCol (xs : List ℚ) : OutlierInfo :=
  let q1 := quantileLinear xs (1/4)
  let q3 := quantileLinear xs (3/4)
  let iqr := q3 - q1
  let lowerBound := q1 - (3/2) * iqr
  let upperBound := q3 + (3/2) * iqr
  let idx := (List.range xs.length).filter
    (fun i => decide (xs.getD i 0 < lowerBound ∨ xs.getD i 0 > upperBound))
  { q1 := q1, q3 := q3, iqr := iqr,
    lowerBound := lowerBound, upperBound := upperBound,
    count := idx.length,
    percentage := (idx.length : ℚ) / (xs.length : ℚ) * 100,
    indices := idx }

/-! ## Definitions written from the spec's words, for comparison -/

/-- Modelled from the spec: the email transform as §4.2 of the spec words
it — "mask domain label before the last dot fully, keep TLD/suffix" (the
remaining labels are kept; the claim's example masks `example` in
`mail.example.com`).  Username handling as in the code. -/
def specEmailMask (s : Str) : Str :=
  match splitFirst '@' s with
  | (_, none) => hashStr s
  | (username, some domain) =>
    let au := maskUsername username
    let parts := splitAll '.' domain
    if parts.length ≥ 2 then
      let k := parts.length - 2
      let parts' := parts.set k (List.replicate (parts.getD k []).length '*')
      au ++ '@' :: joinWith '.' parts'
    else
      au ++ '@' :: List.replicate domain.length '*'

/-- Modelled from the spec: the §4.3 data-loss formula as the spec words
it — `0.7 * (1 − unique(masked)/unique(original)) + 0.3 * (1 −
mean_len(masked)/mean_len(original))`, result forced to `0.0` when
`unique(original) == 0` (which covers an empty column), length term forced
to `0` when `mean_len(original) == 0`. -/
def specDataLoss (original masked : List Val) : ℚ :=
  if (nuniqueCol original : ℚ) = 0 then 0
  else
    (7/10) * (1 - (nuniqueCol masked : ℚ) / (nuniqueCol original : ℚ)) +
    (3/10) * (if meanLen original = 0 then 0
              else 1 - meanLen masked / meanLen original)

/-! ## Helper lemmas -/

/-- The mean stringified length of a column is never negative. -/
theorem meanLen_nonneg (vals : List Val) : 0 ≤ meanLen vals := by
  unfold meanLen
  apply div_nonneg
  · apply List.sum_nonneg
    intro x hx
    simp only [List.mem_map] at hx
    obtain ⟨v, _, rfl⟩ := hx
    positivity
  · positivity

/-- Splitting once at a character absent from the first part. -/
theorem splitFirst_append_cons (c : Char) (u r : Str) (h : c ∉ u) :
    splitFirst c (u ++ c :: r) = (u, some r) := by
  induction u with
  | nil => simp [splitFirst]
  | cons x xs ih =>
    have hx : x ≠ c := fun he => h (he ▸ List.mem_cons_self x xs)
    have h' : c ∉ xs := fun hm => h (List.mem_cons_of_mem _ hm)
    simp [splitFirst, hx, ih h']

/-- Python `split` never returns an empty list of parts. -/
theorem splitAll_ne_nil (c : Char) (s : Str) : splitAll c s ≠ [] := by
  cases s with
  | nil => simp [splitAll]
  | cons x xs =>
    simp only [splitAll]
    split
    · simp
    · split <;> simp

/-- Splitting at a separator absent from the first segment. -/
theorem splitAll_append_cons (c : Char) (dh dt : Str) (h : c ∉ dh) :
    splitAll c (dh ++ c :: dt) = dh :: splitAll c dt := by
  induction dh with
  | nil => simp [splitAll]
  | cons x xs ih =>
    have hx : x ≠ c := fun he => h (he ▸ List.mem_cons_self x xs)
    have h' : c ∉ xs := fun hm => h (List.mem_cons_of_mem _ hm)
    simp only [List.cons_append, splitAll, if_neg hx, List.append_eq]
    rw [ih h']

/-- Rejoining the parts of a split restores the original string. -/
theorem joinWith_splitAll (c : Char) (s : Str) :
    joinWith c (splitAll c s) = s := by
  induction s with
  | nil => simp [splitAll, joinWith]
  | cons x xs ih =>
    by_cases hx : x = c
    · subst hx
      simp only [splitAll, if_pos rfl]
      cases hs : splitAll x xs with
      | nil => exact absurd hs (splitAll_ne_nil x xs)
      | cons a rest =>
        rw [hs] at ih
        simpa [joinWith] using ih
    · simp only [splitAll, if_neg hx]
      cases hs : splitAll c xs with
      | nil => exact absurd hs (splitAll_ne_nil c xs)
      | cons a rest =>
        rw [hs] at ih
        cases rest with
        | nil =>
          simp only [joinWith] at ih ⊢
          rw [ih]
        | cons b rs =>
          simp only [joinWith] at ih ⊢
          simp [ih]

/-- Null-transparency of a per-value masking transform: nulls map to
nulls and non-null values map to non-null (masked) values. -/
def NullSafe (f : Val → Val) : Prop :=
  f none = none ∧ ∀ s, ∃ t, f (some s) = some t

/-- Email masking is null-transparent. -/
theorem nullSafe_email : NullSafe anonymizeEmail := by
  refine ⟨rfl, fun s => ?_⟩
  simp only [anonymizeEmail]
  rcases h : splitFirst '@' s with ⟨a, b⟩
  cases b <;> simp [h]

/-- Phone masking is null-transparent. -/
theorem nullSafe_phone : NullSafe anonymizePhone := by
  refine ⟨rfl, fun s => ?_⟩
  simp only [anonymizePhone]
  split <;> exact ⟨_, rfl⟩

/-- SSN masking is null-transparent. -/
theorem nullSafe_ssn : NullSafe anonymizeSsnVal := by
  refine ⟨rfl, fun s => ?_⟩
  simp only [anonymizeSsnVal]
  split <;> exact ⟨_, rfl⟩

/-- Financial masking is null-transparent. -/
theorem nullSafe_financial : NullSafe anonymizeFinancial := by
  refine ⟨rfl, fun s => ?_⟩
  simp only [anonymizeFinancial]
  split <;> exact ⟨_, rfl⟩

/-- Address masking is null-transparent. -/
theorem nullSafe_address : NullSafe anonymizeAddress := by
  refine ⟨rfl, fun s => ?_⟩
  simp only [anonymizeAddress]
  split <;> exact ⟨_, rfl⟩

/-- Network masking is null-transparent. -/
theorem nullSafe_network : NullSafe anonymizeNetwork := by
  refine ⟨rfl, fun s => ?_⟩
  simp only [anonymizeNetwork]
  split
  · split <;> exact ⟨_, rfl⟩
  · split
    · split <;> exact ⟨_, rfl⟩
    · exact ⟨_, rfl⟩

/-- Generic hash masking is null-transparent. -/
theorem nullSafe_generic : NullSafe anonymizeGenericVal :=
  ⟨rfl, fun _ => ⟨_, rfl⟩⟩

/-- A null-transparent per-value transform, mapped over a column,
preserves every position's nullness. -/
theorem map_nullSafe_get (f : Val → Val) (hf : NullSafe f) (vs : List Val)
    (i : Nat) (v : Val) (h : vs[i]? = some v) :
    ∃ w, (vs.map f)[i]? = some w ∧
      (v = none → w = none) ∧ (v ≠ none → w ≠ none) := by
  refine ⟨f v, ?_, ?_, ?_⟩
  · rw [List.getElem?_map, h]
    rfl
  · rintro rfl
    exact hf.1
  · intro hne
    rcases v with _ | s
    · exact absurd rfl hne
    · obtain ⟨t, ht⟩ := hf.2 s
      rw [ht]
      simp

/-- The id-mapping recursion preserves the column length. -/
theorem anonymizeIdsGo_length (m : List (Str × Str)) (vs : List Val) :
    (anonymizeIdsGo m vs).length = vs.length := by
  induction vs generalizing m with
  | nil => rfl
  | cons v vs ih =>
    cases v with
    | none => simp [anonymizeIdsGo, ih]
    | some s =>
      simp only [anonymizeIdsGo]
      cases h : m.lookup s <;> simp [ih]

/-- The id-mapping recursion preserves every position's nullness. -/
theorem anonymizeIdsGo_get (m : List (Str × Str)) (vs : List Val)
    (i : Nat) (v : Val) (h : vs[i]? = some v) :
    ∃ w, (anonymizeIdsGo m vs)[i]? = some w ∧
      (v = none → w = none) ∧ (v ≠ none → w ≠ none) := by
  induction vs generalizing m i with
  | nil => simp at h
  | cons x vs ih =>
    cases i with
    | zero =>
      simp only [List.getElem?_cons_zero, Option.some.injEq] at h
      subst h
      cases x with
      | none => exact ⟨none, by simp [anonymizeIdsGo], fun _ => rfl, fun hne => absurd rfl hne⟩
      | some s =>
        simp only [anonymizeIdsGo]
        cases hm : m.lookup s with
        | none => exact ⟨some (idToken (m.length + 1)), by simp, by simp, by simp⟩
        | some tok => exact ⟨some tok, by simp, by simp, by simp⟩
    | succ n =>
      simp only [List.getElem?_cons_succ] at h
      cases x with
      | none =>
        obtain ⟨w, hw, h1, h2⟩ := ih m n h
        exact ⟨w, by simpa [anonymizeIdsGo] using hw, h1, h2⟩
      | some s =>
        simp only [anonymizeIdsGo]
        cases hm : m.lookup s with
        | none =>
          obtain ⟨w, hw, h1, h2⟩ := ih ((s, idToken (m.length + 1)) :: m) n h
          exact ⟨w, by simpa using hw, h1, h2⟩
        | some tok =>
          obtain ⟨w, hw, h1, h2⟩ := ih m n h
          exact ⟨w, by simpa using hw, h1, h2⟩

/-- One word renders as exactly eight hex characters. -/
theorem wordHex_length (w : Nat) : (wordHex w).length = 8 := by
  simp [wordHex]

/-- The full SHA-256 hex digest has 64 characters. -/
theorem sha256hex_length (msg : List Nat) : (sha256hex msg).length = 64 := by
  simp [sha256hex, sha256, wordHex]

/-- Any digit index reduced mod 16 renders as a hex character. -/
theorem hexDigitChar_mem (n : Nat) :
    hexDigitChar (n % 16) ∈ strOf "0123456789abcdef" := by
  have h : n % 16 < 16 := Nat.mod_lt _ (by omega)
  generalize n % 16 = m at h
  interval_cases m <;> decide

/-- Every character of a word's hex rendering is a hex character. -/
theorem wordHex_mem (w : Nat) (c : Char) (hc : c ∈ wordHex w) :
    c ∈ strOf "0123456789abcdef" := by
  simp only [wordHex, List.mem_map, List.mem_range] at hc
  obtain ⟨i, _, rfl⟩ := hc
  exact hexDigitChar_mem _

/-- Every character of the SHA-256 hex digest is a hex character. -/
theorem sha256hex_mem (msg : List Nat) (c : Char) (hc : c ∈ sha256hex msg) :
    c ∈ strOf "0123456789abcdef" := by
  simp only [sha256hex, List.mem_flatten, List.mem_map] at hc
  obtain ⟨sub, ⟨w, _, rfl⟩, hcsub⟩ := hc
  exact wordHex_mem w c hcsub

/-- The truncated salted hash always has exactly 8 characters. -/
theorem hashStr_length (s : Str) : (hashStr s).length = 8 := by
  simp [hashStr, List.length_take, sha256hex_length]

/-! ## The id-mapping dictionary: tokens, parsing, invariants -/

/-- The `id_mapping` dictionary accumulated by `_anonymize_ids` after
processing the whole column. -/
def anonymizeIdsMap (m : List (Str × Str)) : List Val → List (Str × Str)
  | [] => m
  | none :: vs => anonymizeIdsMap m vs
  | some s :: vs =>
    match m.lookup s with
    | some _ => anonymizeIdsMap m vs
    | none => anonymizeIdsMap ((s, idToken (m.length + 1)) :: m) vs

/-- Decimal parsing, the left inverse used to show tokens are injective. -/
def parseDec (s : Str) : Nat := s.foldl (fun a c => a * 10 + (c.toNat - 48)) 0

/-- Parsing after appending one digit. -/
theorem parseDec_append_singleton (xs : Str) (c : Char) :
    parseDec (xs ++ [c]) = parseDec xs * 10 + (c.toNat - 48) := by
  simp [parseDec, List.foldl_append]

/-- Decimal digit characters decode back to their digit. -/
theorem decChar_val (d : Nat) (h : d < 10) : (decChar d).toNat - 48 = d := by
  interval_cases d <;> decide

/-- Fueled decimal rendering round-trips through parsing. -/
theorem parseDec_decStrGo (fuel n : Nat) (h : n < fuel) :
    parseDec (decStrGo fuel n) = n := by
  induction fuel generalizing n with
  | zero => omega
  | succ fuel ih =>
    simp only [decStrGo]
    by_cases h10 : n < 10
    · simp [if_pos h10, parseDec, decChar_val n h10]
    · simp only [if_neg h10]
      have hlt : n / 10 < n := Nat.div_lt_self (by omega) (by omega)
      rw [parseDec_append_singleton, ih (n / 10) (by omega),
        decChar_val (n % 10) (Nat.mod_lt _ (by omega))]
      omega

/-- Decimal rendering round-trips through parsing. -/
theorem parseDec_decStr (n : Nat) : parseDec (decStr n) = n :=
  parseDec_decStrGo _ _ (Nat.lt_succ_self n)

/-- Leading zero padding does not change the parsed value. -/
theorem parseDec_replicate_zero (k : Nat) (l : Str) :
    parseDec (List.replicate k '0' ++ l) = parseDec l := by
  induction k with
  | zero => simp
  | succ k ih =>
    have h0 : ('0'.toNat - 48) = 0 := by decide
    simp only [List.replicate_succ, List.cons_append, parseDec,
      List.foldl_cons] at *
    simpa [h0] using ih

/-- Stripping the `ID_` marker and parsing recovers the token index. -/
theorem parseDec_idToken (n : Nat) : parseDec ((idToken n).drop 3) = n := by
  have hdrop : (idToken n).drop 3
      = List.replicate (6 - (decStr n).length) '0' ++ decStr n := rfl
  rw [hdrop, parseDec_replicate_zero, parseDec_decStr]

/-- Synthetic tokens are injective in their index. -/
theorem idToken_inj (a b : Nat) (h : idToken a = idToken b) : a = b := by
  have := congrArg (fun s => parseDec (List.drop 3 s)) h
  simpa [parseDec_idToken] using this

/-- A successful association-list lookup exhibits a member pair. -/
theorem lookup_eq_some_mem {m : List (Str × Str)} {s : Str} {t : Str}
    (h : m.lookup s = some t) : (s, t) ∈ m := by
  induction m with
  | nil => simp [List.lookup] at h
  | cons p m ih =>
    rcases p with ⟨k, v⟩
    simp only [List.lookup] at h
    cases hk : (s == k) with
    | true =>
      rw [hk] at h
      simp only [Option.some.injEq] at h
      subst h
      have : s = k := eq_of_beq hk
      subst this
      exact List.mem_cons_self _ _
    | false =>
      rw [hk] at h
      exact List.mem_cons_of_mem _ (ih h)

/-- A failed lookup means the key is absent. -/
theorem lookup_none_keys {m : List (Str × Str)} {s : Str}
    (h : m.lookup s = none) : s ∉ m.map Prod.fst := by
  induction m with
  | nil => simp
  | cons p m ih =>
    rcases p with ⟨k, v⟩
    simp only [List.lookup] at h
    cases hk : (s == k) with
    | true => rw [hk] at h; exact Option.noConfusion h
    | false =>
      rw [hk] at h
      have hne : s ≠ k := fun he => by simp [he] at hk
      simp [hne, ih h]

/-- The well-formedness invariant of the per-call `id_mapping`: keys are
distinct and the entry at position `k` (newest first) carries the token of
index `size - k`. -/
def MapWF (m : List (Str × Str)) : Prop :=
  (m.map Prod.fst).Nodup ∧
    ∀ (k : Nat) (hk : k < m.length),
      (m.get ⟨k, hk⟩).2 = idToken (m.length - k)

/-- Inserting a fresh key with the next sequential token keeps the
invariant. -/
theorem mapWF_insert {m : List (Str × Str)} (hWF : MapWF m) {s : Str}
    (h : m.lookup s = none) :
    MapWF ((s, idToken (m.length + 1)) :: m) := by
  constructor
  · simp only [List.map_cons, List.nodup_cons]
    exact ⟨lookup_none_keys h, hWF.1⟩
  · intro k hk
    cases k with
    | zero => simp
    | succ k' =>
      have hk' : k' < m.length := by
        simpa [Nat.succ_lt_succ_iff] using hk
      have := hWF.2 k' hk'
      simpa [List.get, Nat.succ_sub_succ] using this

/-- Under the invariant, the mapping never sends two distinct keys to the
same token: lookups are injective. -/
theorem mapWF_lookup_inj {m : List (Str × Str)} (hWF : MapWF m)
    {s₁ s₂ t : Str} (h₁ : m.lookup s₁ = some t)
    (h₂ : m.lookup s₂ = some t) : s₁ = s₂ := by
  obtain ⟨⟨k₁, hk₁⟩, hg₁⟩ := List.get_of_mem (lookup_eq_some_mem h₁)
  obtain ⟨⟨k₂, hk₂⟩, hg₂⟩ := List.get_of_mem (lookup_eq_some_mem h₂)
  have t₁ := hWF.2 k₁ hk₁
  have t₂ := hWF.2 k₂ hk₂
  rw [hg₁] at t₁
  rw [hg₂] at t₂
  have hkk : m.length - k₁ = m.length - k₂ :=
    idToken_inj _ _ (t₁.symm.trans t₂)
  have hk : k₁ = k₂ := by omega
  subst hk
  have : m.get ⟨k₁, hk₁⟩ = m.get ⟨k₁, hk₂⟩ := rfl
  have hpair : ((s₁, t) : Str × Str) = (s₂, t) := by
    rw [← hg₁, ← hg₂]
  exact congrArg Prod.fst hpair

/-- Lookups already present survive the rest of the run unchanged (fresh
insertions use fresh keys). -/
theorem idsMap_lookup_mono (vs : List Val) (m : List (Str × Str))
    (s t : Str) (h : m.lookup s = some t) :
    (anonymizeIdsMap m vs).lookup s = some t := by
  induction vs generalizing m with
  | nil => exact h
  | cons v vs ih =>
    cases v with
    | none => exact ih m h
    | some s' =>
      simp only [anonymizeIdsMap]
      cases hl : m.lookup s' with
      | some _ => exact ih m h
      | none =>
        apply ih
        have hne : s ≠ s' := fun he => by rw [he, hl] at h; exact Option.noConfusion h
        have hbe : (s == s') = false := beq_eq_false_iff_ne.mpr hne
        simp only [List.lookup, hbe]
        exact h

/-- The run preserves the mapping invariant. -/
theorem idsMap_WF (vs : List Val) (m : List (Str × Str)) (h : MapWF m) :
    MapWF (anonymizeIdsMap m vs) := by
  induction vs generalizing m with
  | nil => exact h
  | cons v vs ih =>
    cases v with
    | none => exact ih m h
    | some s =>
      simp only [anonymizeIdsMap]
      cases hl : m.lookup s with
      | some _ => exact ih m h
      | none => exact ih _ (mapWF_insert h hl)

/-- Every non-null position of the output of `_anonymize_ids` carries the
token the final mapping assigns to its original value. -/
theorem idsGo_get_lookup (vs : List Val) (m : List (Str × Str)) (i : Nat)
    (s : Str) (h : vs[i]? = some (some s)) :
    ∃ t, (anonymizeIdsGo m vs)[i]? = some (some t) ∧
      (anonymizeIdsMap m vs).lookup s = some t := by
  induction vs generalizing m i with
  | nil => simp at h
  | cons v vs ih =>
    cases i with
    | zero =>
      simp only [List.getElem?_cons_zero, Option.some.injEq] at h
      subst h
      simp only [anonymizeIdsGo, anonymizeIdsMap]
      cases hl : m.lookup s with
      | some t =>
        exact ⟨t, by simp, idsMap_lookup_mono vs m s t hl⟩
      | none =>
        refine ⟨idToken (m.length + 1), by simp, ?_⟩
        apply idsMap_lookup_mono
        simp [List.lookup]
    | succ n =>
      simp only [List.getElem?_cons_succ] at h
      cases v with
      | none =>
        obtain ⟨t, h1, h2⟩ := ih m n h
        exact ⟨t, by simpa [anonymizeIdsGo] using h1,
          by simpa [anonymizeIdsMap] using h2⟩
      | some s' =>
        simp only [anonymizeIdsGo, anonymizeIdsMap]
        cases hl : m.lookup s' with
        | some tok =>
          obtain ⟨t, h1, h2⟩ := ih m n h
          exact ⟨t, by simpa using h1, h2⟩
        | none =>
          obtain ⟨t, h1, h2⟩ := ih ((s', idToken (m.length + 1)) :: m) n h
          exact ⟨t, by simpa using h1, h2⟩

/-! ## Claim theorems -/

/-- C1: the spec says the classifier flags a column whose sampled values
match one of the content regular expressions, in particular a column of
well-formed emails such as `a@x.com` under a neutral name.  The code
passes every pattern through `re.escape` before matching, so the escaped
regular expression only matches the pattern's own literal source text and
the classifier reports such a column as not sensitive (the column `notes`
with two copies of `a@x.com` is also below the 0.9 cardinality ratio, and
`notes` holds no sensitive keyword). -/
theorem c1_escaped_patterns_never_flag_email_content :
    containsSensitiveData [some (strOf "a@x.com"), some (strOf "a@x.com")]
      (strOf "notes") = .ok false := by decide

/-- C5: the spec says `anonymize_dataframe` is total on well-formed
tabular input including a dataset with zero rows; on a zero-row dataset
with the neutrally named column `notes`, `_contains_sensitive_data`
evaluates `series.nunique() / len(series)` with `len(series) = 0` and the
call raises `ZeroDivisionError` instead of returning. -/
theorem c5_zero_row_dataframe_raises :
    anonymizeDataframe [(strOf "notes", [])] = .error .zeroDivisionError := by
  decide

/-- C6: `_calculate_data_loss` equals exactly the spec's formula
`0.7 * (1 − unique(masked)/unique(original)) + 0.3 * (1 −
mean_len(masked)/mean_len(original))`, with the whole result forced to 0
when `unique(original)` is 0 (which subsumes the empty column), and the
length term forced to 0 when `mean_len(original)` is 0. -/
theorem c6_data_loss_matches_spec_formula (original masked : List Val) :
    calculateDataLoss original masked = specDataLoss original masked := by
  unfold calculateDataLoss specDataLoss
  by_cases h0 : original.length = 0
  · have he : original = [] := List.length_eq_zero.mp h0
    subst he
    simp [nuniqueCol]
  · simp only [if_neg h0]
    by_cases hu : ((nuniqueCol original : ℚ)) = 0
    · simp [hu]
    · simp only [if_neg hu]
      by_cases hm : meanLen original = 0
      · simp only [if_pos hm]
        ring
      · simp only [if_neg hm]
        ring

set_option maxRecDepth 100000 in
/-- C3 counterexample: `_anonymize_ids` creates a fresh `id_mapping`
dictionary per column, not per run, so in one `anonymize_dataframe` call
over the two id columns `user_id = [alice]` and `item_id = [bob]` the two
distinct original values both receive the token `ID_000001`. -/
theorem c3_counterexample_cross_column_collision :
    (anonymizeDataframe [(strOf "user_id", [some (strOf "alice")]),
          (strOf "item_id", [some (strOf "bob")])]).toOption.map
        (fun p => p.1.map Prod.snd)
      = some [[some (strOf "ID_000001")], [some (strOf "ID_000001")]] ∧
      strOf "alice" ≠ strOf "bob" := by
  decide

/-- C3 (amended): within one column masked with id_mapping (one call to
`_anonymize_ids`, whose mapping starts empty), the same original value
always maps to the same token and distinct original values never receive
the same token; the guarantee is per column, not per run — across two id
columns of one dataset the mapping resets and tokens repeat (see the
counterexample). -/
theorem c3_id_tokens_injective_within_column (vals : List Val) (i j : Nat)
    (si sj : Str) (hi : vals[i]? = some (some si))
    (hj : vals[j]? = some (some sj)) :
    ((anonymizeIds vals)[i]? = (anonymizeIds vals)[j]? ↔ si = sj) := by
  obtain ⟨ti, hti, hlti⟩ := idsGo_get_lookup vals [] i si hi
  obtain ⟨tj, htj, hltj⟩ := idsGo_get_lookup vals [] j sj hj
  have hWF : MapWF (anonymizeIdsMap [] vals) :=
    idsMap_WF vals []
      ⟨List.nodup_nil, fun k hk => absurd hk (by simp)⟩
  unfold anonymizeIds
  rw [hti, htj]
  constructor
  · intro he
    have htij : ti = tj := by simpa using he
    subst htij
    exact mapWF_lookup_inj hWF hlti hltj
  · intro he
    subst he
    rw [hlti] at hltj
    simpa using hltj

/-- C3 witness: the repeated value `a` at positions 0 and 2 of one column
receives the same token. -/
theorem c3_id_tokens_injective_within_column_witness :
    ((anonymizeIds [some (strOf "a"), some (strOf "b"),
        some (strOf "a")])[0]?
      = (anonymizeIds [some (strOf "a"), some (strOf "b"),
        some (strOf "a")])[2]? ↔ strOf "a" = strOf "a") :=
  c3_id_tokens_injective_within_column
    [some (strOf "a"), some (strOf "b"), some (strOf "a")] 0 2
    (strOf "a") (strOf "a") (by decide) (by decide)

set_option maxRecDepth 100000 in
/-- C4 counterexample: the data-loss estimate is not always in `[0, 1]`.
For the original column `["a", "b"]` masked by the generic hash strategy
(its own masking output), each masked value is 8 characters long, the
length term is `1 - 8/1 = -7`, and the estimate is negative. -/
theorem c4_counterexample_data_loss_negative :
    calculateDataLoss [some (strOf "a"), some (strOf "b")]
      (anonymizeGeneric [some (strOf "a"), some (strOf "b")]) < 0 := by
  decide

/-- C4 (amended): the data-loss estimate is always at most 1, and it is
non-negative (hence in `[0, 1]`) whenever masking does not increase the
number of distinct values nor the mean stringified length — the lower
bound fails in general because a masking strategy can lengthen values
(see the counterexample). -/
theorem c4_data_loss_bounds (original masked : List Val) :
    calculateDataLoss original masked ≤ 1 ∧
      (nuniqueCol masked ≤ nuniqueCol original →
       meanLen masked ≤ meanLen original →
       0 ≤ calculateDataLoss original masked) := by
  unfold calculateDataLoss
  by_cases h0 : original.length = 0
  · simp [h0]
  · simp only [if_neg h0]
    by_cases hu : ((nuniqueCol original : ℚ)) = 0
    · simp [hu]
    · simp only [if_neg hu]
      have hopos : (0 : ℚ) < (nuniqueCol original : ℚ) :=
        lt_of_le_of_ne (by positivity) (Ne.symm hu)
      have hanon : (0 : ℚ) ≤ (nuniqueCol masked : ℚ) := by positivity
      by_cases hm : meanLen original = 0
      · simp only [if_pos hm]
        constructor
        · have hq : (0 : ℚ) ≤ (nuniqueCol masked : ℚ) / (nuniqueCol original : ℚ) :=
            div_nonneg hanon (le_of_lt hopos)
          nlinarith
        · intro hcard _
          have hq : (nuniqueCol masked : ℚ) / (nuniqueCol original : ℚ) ≤ 1 := by
            rw [div_le_one hopos]
            exact_mod_cast hcard
          nlinarith
      · simp only [if_neg hm]
        have hmo : (0 : ℚ) < meanLen original :=
          lt_of_le_of_ne (meanLen_nonneg original) (Ne.symm hm)
        have hmm : (0 : ℚ) ≤ meanLen masked := meanLen_nonneg masked
        constructor
        · have hq1 : (0 : ℚ) ≤ (nuniqueCol masked : ℚ) / (nuniqueCol original : ℚ) :=
            div_nonneg hanon (le_of_lt hopos)
          have hq2 : (0 : ℚ) ≤ meanLen masked / meanLen original :=
            div_nonneg hmm (le_of_lt hmo)
          nlinarith
        · intro hcard hlen
          have hq1 : (nuniqueCol masked : ℚ) / (nuniqueCol original : ℚ) ≤ 1 := by
            rw [div_le_one hopos]
            exact_mod_cast hcard
          have hq2 : meanLen masked / meanLen original ≤ 1 := by
            rw [div_le_one hmo]
            exact hlen
          nlinarith

/-- C4 witness: the amended bounds at a concrete pair of columns whose
masking shrinks both cardinality and mean length. -/
theorem c4_data_loss_bounds_witness :
    (0 : ℚ) ≤ calculateDataLoss
        [some (strOf "aaa"), some (strOf "bbb")]
        [some (strOf "**"), some (strOf "**")] ∧
      calculateDataLoss
        [some (strOf "aaa"), some (strOf "bbb")]
        [some (strOf "**"), some (strOf "**")] ≤ 1 :=
  ⟨(c4_data_loss_bounds
      [some (strOf "aaa"), some (strOf "bbb")]
      [some (strOf "**"), some (strOf "**")]).2 (by decide) (by decide),
   (c4_data_loss_bounds
      [some (strOf "aaa"), some (strOf "bbb")]
      [some (strOf "**"), some (strOf "**")]).1⟩

set_option maxRecDepth 100000 in
/-- C2 counterexample: on `u@mail.example.com` (a domain with three
labels) the code masks the first label `mail` and keeps `example.com`,
whereas the claim masks the label `example` before the last dot; the
code's output therefore differs from the spec-worded transform. -/
theorem c2_counterexample_three_label_domain :
    anonymizeEmail (some (strOf "u@mail.example.com"))
        = some (strOf "*@****.example.com") ∧
      anonymizeEmail (some (strOf "u@mail.example.com"))
        ≠ some (specEmailMask (strOf "u@mail.example.com")) := by
  decide

/-- C2 (amended): for every non-null value of the shape
`u@<label>.<rest>` (at least one dot in the domain), email masking keeps
the username's first and last characters (fully masking usernames of
length at most 2, via `maskUsername`), fully masks the FIRST domain label
and keeps everything after the first dot — including the TLD — unchanged;
for `mail.example.com` the masked label is `mail`, not `example`. -/
theorem c2_email_masks_first_domain_label (u dh dt : Str)
    (hu : '@' ∉ u) (hd : '.' ∉ dh) :
    anonymizeEmail (some (u ++ '@' :: (dh ++ '.' :: dt)))
      = some (maskUsername u ++ '@' ::
          (List.replicate dh.length '*' ++ '.' :: dt)) := by
  simp only [anonymizeEmail]
  rw [splitFirst_append_cons '@' u _ hu]
  simp only
  rw [splitAll_append_cons '.' dh dt hd]
  have hlen : (dh :: splitAll '.' dt).length ≥ 2 := by
    have : splitAll '.' dt ≠ [] := splitAll_ne_nil '.' dt
    have : 0 < (splitAll '.' dt).length := List.length_pos.mpr this
    simp only [List.length_cons]
    omega
  simp only [if_pos hlen, List.headD_cons, List.tail_cons,
    joinWith_splitAll]

/-- C2 witness: the amended masking shape at `user@mail.example.com`. -/
theorem c2_email_masks_first_domain_label_witness :
    anonymizeEmail (some (strOf "user" ++ '@' ::
        (strOf "mail" ++ '.' :: strOf "example.com")))
      = some (maskUsername (strOf "user") ++ '@' ::
          (List.replicate (strOf "mail").length '*' ++ '.' ::
            strOf "example.com")) :=
  c2_email_masks_first_domain_label (strOf "user") (strOf "mail")
    (strOf "example.com") (by decide) (by decide)

/-- C7: every masking method (whichever branch the keyword dispatch of
`_anonymize_column` selects) returns a column of the same length in which
every null passes through as null at its original position and every
non-null position holds a (non-null) masked value. -/
theorem c7_masking_preserves_length_and_nulls (columnName : Str)
    (vals : List Val) :
    (anonymizeColumn vals columnName).length = vals.length ∧
      ∀ (i : Nat) (v : Val), vals[i]? = some v →
        ∃ w, (anonymizeColumn vals columnName)[i]? = some w ∧
          (v = none → w = none) ∧ (v ≠ none → w ≠ none) := by
  unfold anonymizeColumn
  split
  · exact ⟨List.length_map _ _, fun i v h =>
      map_nullSafe_get _ nullSafe_email vals i v h⟩
  · split
    · exact ⟨List.length_map _ _, fun i v h =>
        map_nullSafe_get _ nullSafe_phone vals i v h⟩
    · split
      · exact ⟨List.length_map _ _, fun i v h =>
          map_nullSafe_get _ nullSafe_ssn vals i v h⟩
      · split
        · exact ⟨List.length_map _ _, fun i v h =>
            map_nullSafe_get _ nullSafe_financial vals i v h⟩
        · split
          · exact ⟨List.length_map _ _, fun i v h =>
              map_nullSafe_get _ nullSafe_address vals i v h⟩
          · split
            · exact ⟨List.length_map _ _, fun i v h =>
                map_nullSafe_get _ nullSafe_network vals i v h⟩
            · split
              · exact ⟨anonymizeIdsGo_length [] vals, fun i v h =>
                  anonymizeIdsGo_get [] vals i v h⟩
              · exact ⟨List.length_map _ _, fun i v h =>
                  map_nullSafe_get _ nullSafe_generic vals i v h⟩

/-- C7 witness: length and null preservation of the email strategy on a
concrete two-row column whose first row is null. -/
theorem c7_masking_preserves_witness :
    (anonymizeColumn [none, some (strOf "x@y.com")] (strOf "email")).length
        = ([none, some (strOf "x@y.com")] : List Val).length ∧
      ∃ w, (anonymizeColumn [none, some (strOf "x@y.com")]
            (strOf "email"))[0]? = some w ∧
          ((none : Val) = none → w = none) ∧
          ((none : Val) ≠ none → w ≠ none) :=
  ⟨(c7_masking_preserves_length_and_nulls (strOf "email")
      [none, some (strOf "x@y.com")]).1,
   (c7_masking_preserves_length_and_nulls (strOf "email")
      [none, some (strOf "x@y.com")]).2 0 none (by decide)⟩

/-- The store loop of the heap model writes only through reference `r`:
every other object of the store is untouched, also when a per-column
exception aborts the loop. -/
theorem anonymizeLoopH_frame (cols : List Str) (st : Store) (r j : Nat)
    (hj : j ≠ r) :
    ((anonymizeLoopH cols st r).1)[j]? = st[j]? := by
  induction cols generalizing st with
  | nil => rfl
  | cons c rest ih =>
    simp only [anonymizeLoopH]
    cases h : containsSensitiveData (getCol (st.getD r []) c) c with
    | error e => rfl
    | ok b =>
      cases b with
      | true =>
        rw [ih]
        unfold storeSetCol
        exact List.getElem?_set_ne (Ne.symm hj)
      | false => exact ih st

/-- C8: `anonymize_dataframe` never mutates the caller's dataframe: in the
explicit-heap model the call copies the input object to a fresh reference
and writes only through the copy, so the object the caller's reference
points to is unchanged after the call — whether it returns or raises. -/
theorem c8_caller_dataframe_unchanged (st : Store) (r : Nat)
    (h : r < st.length) :
    ((anonymizeDataframeH st r).1)[r]? = st[r]? := by
  unfold anonymizeDataframeH
  have hne : r ≠ st.length := Nat.ne_of_lt h
  have hfr := anonymizeLoopH_frame ((st.getD r []).map Prod.fst)
      (st ++ [st.getD r []]) st.length r hne
  have happ : (st ++ [st.getD r []])[r]? = st[r]? :=
    List.getElem?_append_left h
  dsimp only
  split <;> rename_i heq <;> rw [heq] at hfr <;> exact hfr.trans happ

/-- C8 witness: the caller's object at reference 0 is unchanged by a run
over a store holding one single-column dataframe. -/
theorem c8_caller_dataframe_unchanged_witness :
    ((anonymizeDataframeH [[(strOf "email", [some (strOf "a@b.co")])]] 0).1)[0]?
      = ([[(strOf "email", [some (strOf "a@b.co")])]] : Store)[0]? :=
  c8_caller_dataframe_unchanged [[(strOf "email", [some (strOf "a@b.co")])]] 0
    (by decide)

/-- C9: outlier detection on `[1,2,3,4,5,100]` yields Q1 = 2.25,
Q3 = 4.75, IQR = 2.5, bounds `[-1.5, 8.5]` and flags the value 100 (row
index 5) as the sole outlier; in general a row is reported as an outlier
exactly when its value lies strictly outside
`[Q1 - 1.5 IQR, Q3 + 1.5 IQR]`. -/
theorem c9_outlier_detection :
    detectOutliersCol [1, 2, 3, 4, 5, 100] =
        ⟨9/4, 19/4, 5/2, -3/2, 17/2, 1, 50/3, [5]⟩ ∧
      ∀ (xs : List ℚ) (i : Nat), i < xs.length →
        (i ∈ (detectOutliersCol xs).indices ↔
          (xs.getD i 0 < quantileLinear xs (1/4) -
              (3/2) * (quantileLinear xs (3/4) - quantileLinear xs (1/4)) ∨
           xs.getD i 0 > quantileLinear xs (3/4) +
              (3/2) * (quantileLinear xs (3/4) - quantileLinear xs (1/4)))) := by
  refine ⟨by decide, ?_⟩
  intro xs i hi
  unfold detectOutliersCol
  simp [List.mem_filter, List.mem_range, hi]

/-- C9 witness: the general outlier characterization applied to the row
holding 100 in the concrete series. -/
theorem c9_outlier_detection_witness :
    5 ∈ (detectOutliersCol [1, 2, 3, 4, 5, 100]).indices ↔
      (([1, 2, 3, 4, 5, 100] : List ℚ).getD 5 0 <
          quantileLinear [1, 2, 3, 4, 5, 100] (1/4) -
            (3/2) * (quantileLinear [1, 2, 3, 4, 5, 100] (3/4) -
              quantileLinear [1, 2, 3, 4, 5, 100] (1/4)) ∨
       ([1, 2, 3, 4, 5, 100] : List ℚ).getD 5 0 >
          quantileLinear [1, 2, 3, 4, 5, 100] (3/4) +
            (3/2) * (quantileLinear [1, 2, 3, 4, 5, 100] (3/4) -
              quantileLinear [1, 2, 3, 4, 5, 100] (1/4))) :=
  c9_outlier_detection.2 [1, 2, 3, 4, 5, 100] 5 (by decide)

/-- C10: the generic `hash_anonymization` fallback is deterministic across
runs and datasets — `_hash_value` salts with the hard-coded constant
`zukii_anon_2024` and is a pure function of the stringified value, so its
output is always the same 8-character lower-case hexadecimal string for
the same value, even across two independently anonymized datasets; by
contrast, `id_mapping` tokens depend on the dataset (the same value `a`
receives different tokens in two different runs). -/
theorem c10_generic_hash_deterministic :
    (∀ s : Str, (hashStr s).length = 8 ∧
        ∀ c ∈ hashStr s, c ∈ strOf "0123456789abcdef") ∧
      (∀ (s₁ s₂ : List Val) (i j : Nat) (v : Str),
        s₁[i]? = some (some v) → s₂[j]? = some (some v) →
        (anonymizeGeneric s₁)[i]? = (anonymizeGeneric s₂)[j]?) ∧
      (anonymizeIds [some (strOf "b"), some (strOf "a")])[1]?
        ≠ (anonymizeIds [some (strOf "a")])[0]? := by
  refine ⟨fun s => ⟨hashStr_length s, fun c hc => ?_⟩,
    fun s₁ s₂ i j v h1 h2 => ?_, ?_⟩
  · exact sha256hex_mem _ c (List.mem_of_mem_take hc)
  · simp only [anonymizeGeneric, List.getElem?_map, h1, h2]
  · decide

/-- C10 witness: the hash of `a` has 8 characters and equals itself when
`a` occurs at different positions of two different datasets. -/
theorem c10_generic_hash_deterministic_witness :
    (hashStr (strOf "a")).length = 8 ∧
      (anonymizeGeneric [some (strOf "a")])[0]?
        = (anonymizeGeneric [some (strOf "x"), some (strOf "a")])[1]? :=
  ⟨(c10_generic_hash_deterministic.1 (strOf "a")).1,
   c10_generic_hash_deterministic.2.1 [some (strOf "a")]
     [some (strOf "x"), some (strOf "a")] 0 1 (strOf "a")
     (by decide) (by decide)⟩

end Zukii





